import Mathlib

/-!
Shallow embedding of `rust-code-builder` (src/src/lib.rs): the `CodeSpace`
document, the `Code` entry sum type, `Block` with its optional
`BlockSignature`, the append-only construction API, and the recursive
indentation-aware renderer.  Rust `String` pushes become Lean `String`
appends (in the source's emission order), `Vec::push` becomes appending a
singleton at the end of a `List`, and `str::repeat` becomes `repeatStr`.
-/

namespace RCB

/-- Rust `str::repeat(n)`: `s` concatenated with itself `n` times. -/
def repeatStr (s : String) : Nat → String
  | 0 => ""
  | n + 1 => s ++ repeatStr s n

/-- Rust's `[String]::join(sep)`. -/
def joinSep (sep : String) : List String → String
  | [] => ""
  | [x] => x
  | x :: y :: xs => x ++ sep ++ joinSep sep (y :: xs)

/-- Rust `SignatureVisibility` from src/src/lib.rs. -/
inductive SignatureVisibility where
  | Pub : SignatureVisibility
  | PubCrate : SignatureVisibility
  | PubSuper : SignatureVisibility
  | PubSelf : SignatureVisibility

/-- Rust `impl ToString for SignatureVisibility`. -/
def SignatureVisibility.to_string : SignatureVisibility → String
  | .Pub => "pub"
  | .PubCrate => "pub(crate)"
  | .PubSuper => "pub(super)"
  | .PubSelf => "pub(self)"

/-- Rust `BlockSignature` from src/src/lib.rs. -/
inductive BlockSignature where
  | Module : Option SignatureVisibility → String → BlockSignature
  | Function : Option SignatureVisibility → Bool → String → List String →
      List (String × String) → Option String → List (String × String) → BlockSignature
  | Custom : String → BlockSignature

/-- Rust `impl ToString for BlockSignature`, push-by-push in source order. -/
def BlockSignature.to_string : BlockSignature → String
  | .Module vis name =>
      (match vis with | some v => v.to_string ++ " " | none => "")
        ++ "mod " ++ name
  | .Function vis is_async name generics params return_type where_clauses =>
      (match vis with | some v => v.to_string ++ " " | none => "")
        ++ (if is_async then "async " else "")
        ++ "fn " ++ name
        ++ (if generics.isEmpty then "" else "<" ++ joinSep ", " generics ++ ">")
        ++ "(" ++ joinSep ", " (params.map fun p => p.1 ++ ": " ++ p.2) ++ ")"
        ++ (match return_type with | some r => " -> " ++ r | none => "")
        ++ (if where_clauses.isEmpty then ""
            else "\nwhere " ++ joinSep ", " (where_clauses.map fun c => c.1 ++ ": " ++ c.2))
  | .Custom s => s

mutual
/-- Rust `Code` from src/src/lib.rs: `EmptyLine`, `Line(String)`, `Block(Block)`. -/
inductive Code where
  | emptyLine : Code
  | line : String → Code
  | block : Block → Code

/-- Rust `Block` from src/src/lib.rs: optional signature plus child codes. -/
inductive Block where
  | mk : Option BlockSignature → List Code → Block
end

/-- Field accessor for `Block.signature`. -/
def Block.signature : Block → Option BlockSignature
  | .mk s _ => s

/-- Field accessor for `Block.codes`. -/
def Block.codes : Block → List Code
  | .mk _ c => c

/-- Rust `Block::new` (via `Default`): no signature, no codes. -/
def Block.new : Block := .mk none []

/-- Rust `Block::set_signature`. -/
def Block.set_signature : Block → Option BlockSignature → Block
  | .mk _ c, sig => .mk sig c

/-- Rust `Block::insert_line`. -/
def Block.insert_line : Block → String → Block
  | .mk s c, content => .mk s (c ++ [Code.line content])

/-- Rust `Block::insert_line_if`. -/
def Block.insert_line_if : Block → Bool → String → Block
  | b, cond, content => if cond then b.insert_line content else b

/-- Rust `Block::insert_block`. -/
def Block.insert_block : Block → Block → Block
  | .mk s c, content => .mk s (c ++ [Code.block content])

/-- Rust `Block::insert_new_line`. -/
def Block.insert_new_line : Block → Block
  | .mk s c => .mk s (c ++ [Code.emptyLine])

/-- Rust `Block::insert_new_lines`: the `for _ in 0..count` push loop. -/
def Block.insert_new_lines : Block → Nat → Block
  | b, 0 => b
  | b, n + 1 => b.insert_new_line.insert_new_lines n

/-- Rust `CodeSpace` from src/src/lib.rs. -/
structure CodeSpace where
  indent_char : Char
  indent_depth : Nat
  codes : List Code

/-- Rust `CodeSpace::new`: space indent char, depth 2, no codes. -/
def CodeSpace.new : CodeSpace :=
  { indent_char := ' ', indent_depth := 2, codes := [] }

/-- Rust `CodeSpace::insert_line`. -/
def CodeSpace.insert_line (cs : CodeSpace) (content : String) : CodeSpace :=
  { cs with codes := cs.codes ++ [Code.line content] }

/-- Rust `CodeSpace::insert_line_if`. -/
def CodeSpace.insert_line_if (cs : CodeSpace) (cond : Bool) (content : String) : CodeSpace :=
  if cond then cs.insert_line content else cs

/-- Rust `CodeSpace::insert_block`. -/
def CodeSpace.insert_block (cs : CodeSpace) (content : Block) : CodeSpace :=
  { cs with codes := cs.codes ++ [Code.block content] }

/-- Rust `CodeSpace::insert_new_line`. -/
def CodeSpace.insert_new_line (cs : CodeSpace) : CodeSpace :=
  { cs with codes := cs.codes ++ [Code.emptyLine] }

/-- Rust `CodeSpace::insert_new_lines`: the `for _ in 0..count` push loop. -/
def CodeSpace.insert_new_lines : CodeSpace → Nat → CodeSpace
  | cs, 0 => cs
  | cs, n + 1 => cs.insert_new_line.insert_new_lines n

mutual
/-- Rust `Block::to_string_with_indent`, emission order as in the source:
indent, optional signature plus space, `"{\n"`, the children, indent,
`"}\n"`. -/
def Block.to_string_with_indent : Block → Nat → String → String
  | .mk sig codes, depth, ind =>
      repeatStr ind depth
        ++ (match sig with | some s => BlockSignature.to_string s ++ " " | none => "")
        ++ "\x7b\n"
        ++ renderCodes codes depth ind
        ++ repeatStr ind depth ++ "\x7d\n"

/-- The `for code in &self.codes` loop of `Block::to_string_with_indent`,
as the concatenation of the per-entry fragments in order. -/
def renderCodes : List Code → Nat → String → String
  | [], _, _ => ""
  | c :: cs, depth, ind => renderCode c depth ind ++ renderCodes cs depth ind

/-- One arm of the child `match` in `Block::to_string_with_indent`:
`EmptyLine` pushes `"\n"`; `Line` pushes the block's indent, one more
indent unit, the content and `"\n"`; a child `Block` recurses at
`depth + 1`. -/
def renderCode : Code → Nat → String → String
  | .emptyLine, _, _ => "\n"
  | .line s, depth, ind => repeatStr ind depth ++ ind ++ s ++ "\n"
  | .block b, depth, ind => b.to_string_with_indent (depth + 1) ind
end

/-- The indent unit `CodeSpace::to_string` computes:
`indent_char.to_string().repeat(indent_depth)`. -/
def CodeSpace.indentUnit (cs : CodeSpace) : String :=
  repeatStr cs.indent_char.toString cs.indent_depth

/-- One arm of the top-level `match` in `impl ToString for CodeSpace`:
lines get no indent, blocks start at depth 0. -/
def renderTopCode (ind : String) : Code → String
  | .emptyLine => "\n"
  | .line s => s ++ "\n"
  | .block b => b.to_string_with_indent 0 ind

/-- The `for code in &self.codes` loop of `impl ToString for CodeSpace`. -/
def renderTop (ind : String) : List Code → String
  | [] => ""
  | c :: cs => renderTopCode ind c ++ renderTop ind cs

/-- Rust `impl ToString for CodeSpace`. -/
def CodeSpace.to_string (cs : CodeSpace) : String :=
  renderTop cs.indentUnit cs.codes

/-- Rust `impl ToString for Block`: standalone rendering at depth 0 with the
fixed two-space default indent. -/
def Block.to_string (b : Block) : String :=
  b.to_string_with_indent 0 "  "

/-- The optional signature fragment a block emits before its opening
brace (signature text plus a space, or nothing). -/
def sigPart (b : Block) : String :=
  match b.signature with
  | some s => BlockSignature.to_string s ++ " "
  | none => ""

/-- Navigate from a block down through nested child blocks by child
index; `some` exactly when every index hits a `Code.block` child. -/
def Block.subBlock : Block → List Nat → Option Block
  | b, [] => some b
  | b, i :: is =>
    match b.codes.get? i with
    | some (Code.block b') => b'.subBlock is
    | _ => none

/-- Number of occurrences of a character in a string. -/
def ccount (ch : Char) (s : String) : Nat :=
  s.data.count ch

/-- A string containing no brace characters. -/
def strBraceFree (s : String) : Bool :=
  s.data.all fun c => !(c == '\x7b') && !(c == '\x7d')

/-- No brace characters in an optional signature's formatted text. -/
def optSigBraceFree : Option BlockSignature → Bool
  | some s => strBraceFree (BlockSignature.to_string s)
  | none => true

mutual
/-- No brace characters in any line content or signature text of a code
entry. -/
def Code.braceFree : Code → Bool
  | .emptyLine => true
  | .line s => strBraceFree s
  | .block b => b.braceFree

/-- No brace characters in this block's signature text or anywhere in
its children. -/
def Block.braceFree : Block → Bool
  | .mk sig codes => optSigBraceFree sig && codesBraceFree codes

/-- Rust `Code.braceFree` over a list of entries. -/
def codesBraceFree : List Code → Bool
  | [] => true
  | c :: cs => c.braceFree && codesBraceFree cs
end

/-- No brace characters in the indent character or anywhere in the
document's entries. -/
def CodeSpace.braceFree (cs : CodeSpace) : Bool :=
  !(cs.indent_char == '\x7b') && !(cs.indent_char == '\x7d') && codesBraceFree cs.codes

/-- The spec's §4.2 template for a `FunctionSignature` up to the return
type (written from the spec's words, for comparison with the code's
formatter): optional visibility token plus space, optional `"async "`,
`"fn "`, the name, the generics in angle brackets only when non-empty,
the parenthesised `name: type` parameter list, and `" -> "` plus the
return type only when present. -/
def functionSpecTemplate (vis : Option SignatureVisibility) (is_async : Bool)
    (name : String) (generics : List String) (params : List (String × String))
    (ret : Option String) : String :=
  (match vis with | some v => v.to_string ++ " " | none => "")
    ++ (if is_async then "async " else "")
    ++ "fn " ++ name
    ++ (if generics.isEmpty then "" else "<" ++ joinSep ", " generics ++ ">")
    ++ "(" ++ joinSep ", " (params.map fun p => p.1 ++ ": " ++ p.2) ++ ")"
    ++ (match ret with | some r => " -> " ++ r | none => "")

/-- The where-clause continuation text the spec's §4.2 template appends
after a literal newline when `where_clauses` is non-empty. -/
def whereSpecText (where_clauses : List (String × String)) : String :=
  "where " ++ joinSep ", " (where_clauses.map fun c => c.1 ++ ": " ++ c.2)

/-- C3: the concrete scenario-C signature formats to exactly
`pub async fn run(x: i32) -> i32`, and in general (with no
where-clauses) the code's formatter emits exactly the spec's ordered
template: visibility token plus space if present, `async ` if marked,
`fn `, name, angle-bracketed generics only when non-empty, the
parenthesised parameter list, and ` -> ` plus the return type only when
present. -/
theorem C3_function_signature :
    BlockSignature.to_string
        (.Function (some .Pub) true "run" [] [("x", "i32")] (some "i32") [])
      = "pub async fn run(x: i32) -> i32" ∧
    ∀ (vis : Option SignatureVisibility) (is_async : Bool) (name : String)
      (generics : List String) (params : List (String × String)) (ret : Option String),
      BlockSignature.to_string (.Function vis is_async name generics params ret [])
        = functionSpecTemplate vis is_async name generics params ret := by
  refine ⟨rfl, ?_⟩
  intro vis is_async name generics params ret
  exact String.append_empty (functionSpecTemplate vis is_async name generics params ret)

/-- C5: a freshly constructed empty `CodeSpace` renders to the empty
string, and an empty `Block` rendered standalone yields exactly
`"{\n}\n"` with no indentation at depth 0. -/
theorem C5_empty_renders :
    CodeSpace.new.to_string = "" ∧ Block.new.to_string = "\x7b\n\x7d\n" :=
  ⟨rfl, rfl⟩

/-- C6: on both `CodeSpace` and `Block`, `insert_line_if false s`
returns the value unchanged (in particular the entry sequence is
identical), and `insert_line_if true s` returns exactly what
`insert_line s` returns. -/
theorem C6_conditional_append (cs : CodeSpace) (b : Block) (s : String) :
    cs.insert_line_if false s = cs ∧
    (cs.insert_line_if false s).codes = cs.codes ∧
    cs.insert_line_if true s = cs.insert_line s ∧
    b.insert_line_if false s = b ∧
    (b.insert_line_if false s).codes = b.codes ∧
    b.insert_line_if true s = b.insert_line s :=
  ⟨rfl, rfl, rfl, rfl, rfl, rfl⟩

/-- C7: standalone `Block` rendering uses the fixed default indent unit
(the default indent character `' '` repeated twice) at depth 0, and for
every block it coincides with rendering the block as the only entry of a
default `CodeSpace`. -/
theorem C7_standalone_block (b : Block) :
    b.to_string = (CodeSpace.new.insert_block b).to_string ∧
    b.to_string = b.to_string_with_indent 0 (repeatStr (Char.toString ' ') 2) :=
  ⟨(String.append_empty (b.to_string_with_indent 0 "  ")).symm, rfl⟩

/-- C8: construction and rendering are total and deterministic — every
document renders to a unique defined string, every block renders at any
depth and indent, and zero-count or empty-string inputs are handled
(inserting zero blank lines is the identity, an empty text line still
renders). -/
theorem C8_totality :
    (∀ cs : CodeSpace, ∃ s, cs.to_string = s ∧ ∀ t, cs.to_string = t → t = s) ∧
    (∀ (b : Block) (d : Nat) (ind : String), ∃ s, b.to_string_with_indent d ind = s) ∧
    (∀ cs : CodeSpace, cs.insert_new_lines 0 = cs) ∧
    (∀ b : Block, b.insert_new_lines 0 = b) ∧
    (CodeSpace.new.insert_line "").to_string = "\n" :=
  ⟨fun cs => ⟨cs.to_string, rfl, fun _ ht => ht.symm⟩,
   fun b d ind => ⟨b.to_string_with_indent d ind, rfl⟩,
   fun _ => rfl, fun _ => rfl, rfl⟩

/-- Splitting the literal `"\nwhere "` the formatter emits into the
newline and the continuation word. -/
theorem nlWhere_split (x : String) : "\nwhere " ++ x = "\n" ++ ("where " ++ x) := by
  rw [← String.append_assoc]
  rfl

/-- C4: a `FunctionSignature` with non-empty where-clauses formats to
the no-where template followed by a literal newline and the
`where `-joined clause list; and when such a signature heads a block,
the renderer puts the depth indent only before the signature's first
line — the `where` continuation starts immediately after the embedded
newline, with no indentation, at every render depth. -/
theorem C4_where_clauses (vis : Option SignatureVisibility) (is_async : Bool)
    (name : String) (generics : List String) (params : List (String × String))
    (ret : Option String) (wc : List (String × String)) (hwc : wc ≠ []) :
    BlockSignature.to_string (.Function vis is_async name generics params ret wc)
      = functionSpecTemplate vis is_async name generics params ret ++ "\n"
          ++ whereSpecText wc ∧
    ∀ (cds : List Code) (d : Nat) (ind : String), ∃ rest,
      Block.to_string_with_indent
          (.mk (some (.Function vis is_async name generics params ret wc)) cds) d ind
        = repeatStr ind d ++ functionSpecTemplate vis is_async name generics params ret
            ++ "\n" ++ (whereSpecText wc ++ " " ++ "\x7b\n") ++ rest := by
  cases wc with
  | nil => exact absurd rfl hwc
  | cons c cs =>
    have h1 : BlockSignature.to_string
          (.Function vis is_async name generics params ret (c :: cs))
        = functionSpecTemplate vis is_async name generics params ret ++ "\n"
            ++ whereSpecText (c :: cs) := by
      show functionSpecTemplate vis is_async name generics params ret
          ++ ("\nwhere " ++ joinSep ", " ((c :: cs).map fun x => x.1 ++ ": " ++ x.2)) = _
      rw [nlWhere_split]
      simp only [whereSpecText, String.append_assoc]
    refine ⟨h1, ?_⟩
    intro cds d ind
    refine ⟨renderCodes cds d ind ++ repeatStr ind d ++ "\x7d\n", ?_⟩
    show repeatStr ind d
        ++ (BlockSignature.to_string
              (.Function vis is_async name generics params ret (c :: cs)) ++ " ")
        ++ "\x7b\n" ++ renderCodes cds d ind ++ repeatStr ind d ++ "\x7d\n" = _
    rw [h1]
    simp only [whereSpecText, String.append_assoc]

/-- Witness for C4 at a concrete one-clause signature. -/
theorem C4_where_clauses_witness :
    ([(("T" : String), ("Clone" : String))] ≠ ([] : List (String × String))) ∧
    (BlockSignature.to_string (.Function none false "f" [] [] none [("T", "Clone")])
      = functionSpecTemplate none false "f" [] [] none ++ "\n"
          ++ whereSpecText [("T", "Clone")] ∧
    ∀ (cds : List Code) (d : Nat) (ind : String), ∃ rest,
      Block.to_string_with_indent
          (.mk (some (.Function none false "f" [] [] none [("T", "Clone")])) cds) d ind
        = repeatStr ind d ++ functionSpecTemplate none false "f" [] [] none
            ++ "\n" ++ (whereSpecText [("T", "Clone")] ++ " " ++ "\x7b\n") ++ rest) :=
  ⟨List.cons_ne_nil _ _,
   C4_where_clauses none false "f" [] [] none [("T", "Clone")] (List.cons_ne_nil _ _)⟩

/-- Inserting `n` blank lines into a block appends exactly `n`
`emptyLine` entries and keeps the signature. -/
theorem block_insert_new_lines_spec (n : Nat) : ∀ b : Block,
    (b.insert_new_lines n).signature = b.signature ∧
    (b.insert_new_lines n).codes = b.codes ++ List.replicate n Code.emptyLine := by
  induction n with
  | zero => intro b; exact ⟨rfl, by simp [Block.insert_new_lines]⟩
  | succ n ih =>
    intro b
    obtain ⟨bs, bc⟩ := b
    obtain ⟨h1, h2⟩ := ih (Block.mk bs (bc ++ [Code.emptyLine]))
    refine ⟨h1, ?_⟩
    show ((Block.mk bs (bc ++ [Code.emptyLine])).insert_new_lines n).codes = _
    rw [h2]
    simp [Block.codes, List.replicate_succ]

/-- Inserting `n` blank lines into a document appends exactly `n`
`emptyLine` entries and keeps both indent parameters. -/
theorem cs_insert_new_lines_spec (n : Nat) : ∀ cs : CodeSpace,
    (cs.insert_new_lines n).indent_char = cs.indent_char ∧
    (cs.insert_new_lines n).indent_depth = cs.indent_depth ∧
    (cs.insert_new_lines n).codes = cs.codes ++ List.replicate n Code.emptyLine := by
  induction n with
  | zero => intro cs; exact ⟨rfl, rfl, by simp [CodeSpace.insert_new_lines]⟩
  | succ n ih =>
    intro cs
    obtain ⟨h1, h2, h3⟩ := ih cs.insert_new_line
    refine ⟨h1, h2, ?_⟩
    show (cs.insert_new_line.insert_new_lines n).codes = _
    rw [h3]
    simp [CodeSpace.insert_new_line, List.replicate_succ]

/-- C9: every append operation preserves the document's `indent_char`
and `indent_depth`, preserves all previously appended entries, and adds
new entries only at the end; `set_signature` leaves a block's entry
sequence unchanged. -/
theorem C9_frame (cs : CodeSpace) (b nb : Block) (s : String) (cond : Bool)
    (n : Nat) (sig : Option BlockSignature) :
    ((cs.insert_line s).indent_char = cs.indent_char ∧
      (cs.insert_line s).indent_depth = cs.indent_depth ∧
      (cs.insert_line s).codes = cs.codes ++ [Code.line s]) ∧
    ((cs.insert_line_if cond s).indent_char = cs.indent_char ∧
      (cs.insert_line_if cond s).indent_depth = cs.indent_depth ∧
      (cs.insert_line_if cond s).codes
        = (if cond then cs.codes ++ [Code.line s] else cs.codes)) ∧
    ((cs.insert_block nb).indent_char = cs.indent_char ∧
      (cs.insert_block nb).indent_depth = cs.indent_depth ∧
      (cs.insert_block nb).codes = cs.codes ++ [Code.block nb]) ∧
    (cs.insert_new_line.indent_char = cs.indent_char ∧
      cs.insert_new_line.indent_depth = cs.indent_depth ∧
      cs.insert_new_line.codes = cs.codes ++ [Code.emptyLine]) ∧
    ((cs.insert_new_lines n).indent_char = cs.indent_char ∧
      (cs.insert_new_lines n).indent_depth = cs.indent_depth ∧
      (cs.insert_new_lines n).codes = cs.codes ++ List.replicate n Code.emptyLine) ∧
    ((b.insert_line s).signature = b.signature ∧
      (b.insert_line s).codes = b.codes ++ [Code.line s]) ∧
    ((b.insert_line_if cond s).signature = b.signature ∧
      (b.insert_line_if cond s).codes
        = (if cond then b.codes ++ [Code.line s] else b.codes)) ∧
    ((b.insert_block nb).signature = b.signature ∧
      (b.insert_block nb).codes = b.codes ++ [Code.block nb]) ∧
    (b.insert_new_line.signature = b.signature ∧
      b.insert_new_line.codes = b.codes ++ [Code.emptyLine]) ∧
    ((b.insert_new_lines n).signature = b.signature ∧
      (b.insert_new_lines n).codes = b.codes ++ List.replicate n Code.emptyLine) ∧
    (b.set_signature sig).codes = b.codes := by
  obtain ⟨bs, bc⟩ := b
  refine ⟨⟨rfl, rfl, rfl⟩, ?_, ⟨rfl, rfl, rfl⟩, ⟨rfl, rfl, rfl⟩,
    cs_insert_new_lines_spec n cs, ⟨rfl, rfl⟩, ?_, ⟨rfl, rfl⟩, ⟨rfl, rfl⟩,
    block_insert_new_lines_spec n (Block.mk bs bc), rfl⟩
  · cases cond
    · exact ⟨rfl, rfl, rfl⟩
    · exact ⟨rfl, rfl, rfl⟩
  · cases cond
    · exact ⟨rfl, rfl⟩
    · exact ⟨rfl, rfl⟩

/-- Every rendered block ends with its closing-brace line, hence with a
newline. -/
theorem block_render_ends_nl (b : Block) (d : Nat) (ind : String) :
    ∃ t, b.to_string_with_indent d ind = t ++ "\n" := by
  obtain ⟨sg, cds⟩ := b
  refine ⟨repeatStr ind d ++ sigPart (.mk sg cds) ++ "\x7b\n"
      ++ renderCodes cds d ind ++ repeatStr ind d ++ "\x7d", ?_⟩
  rw [String.append_assoc]
  rfl

/-- Every top-level fragment — blank line, text line, or block — ends
with a newline. -/
theorem renderTopCode_ends_nl (ind : String) (c : Code) :
    ∃ t, renderTopCode ind c = t ++ "\n" := by
  cases c with
  | emptyLine => exact ⟨"", (String.empty_append "\n").symm⟩
  | line s => exact ⟨s, rfl⟩
  | block b => exact block_render_ends_nl b 0 ind

/-- The top-level rendering of a non-empty entry list ends with a
newline. -/
theorem renderTop_cons_ends_nl (ind : String) (cs : List Code) :
    ∀ c : Code, ∃ t, renderTop ind (c :: cs) = t ++ "\n" := by
  induction cs with
  | nil =>
    intro c
    obtain ⟨t, ht⟩ := renderTopCode_ends_nl ind c
    refine ⟨t, ?_⟩
    show renderTopCode ind c ++ "" = t ++ "\n"
    rw [String.append_empty, ht]
  | cons c2 cs2 ih =>
    intro c
    obtain ⟨t, ht⟩ := ih c2
    refine ⟨renderTopCode ind c ++ t, ?_⟩
    show renderTopCode ind c ++ renderTop ind (c2 :: cs2) = _
    rw [ht, ← String.append_assoc]

/-- C10: a document with at least one entry renders to a non-empty
string whose last character is a newline. -/
theorem C10_trailing_newline (cs : CodeSpace) (h : cs.codes ≠ []) :
    cs.to_string ≠ "" ∧ ∃ t, cs.to_string = t ++ "\n" := by
  obtain ⟨c, l, hcl⟩ : ∃ c l, cs.codes = c :: l := by
    cases hc : cs.codes with
    | nil => exact absurd hc h
    | cons c l => exact ⟨c, l, rfl⟩
  obtain ⟨t, ht⟩ := renderTop_cons_ends_nl cs.indentUnit l c
  have hrender : cs.to_string = t ++ "\n" := by
    show renderTop cs.indentUnit cs.codes = _
    rw [hcl]
    exact ht
  refine ⟨?_, ⟨t, hrender⟩⟩
  rw [hrender]
  intro he
  have hlen := congrArg String.length he
  rw [String.length_append] at hlen
  have h1 : ("\n" : String).length = 1 := rfl
  have h2 : ("" : String).length = 0 := rfl
  rw [h1, h2] at hlen
  omega

/-- Witness for C10 on a one-line document. -/
theorem C10_trailing_newline_witness :
    (CodeSpace.new.insert_line "x").codes ≠ [] ∧
    ((CodeSpace.new.insert_line "x").to_string ≠ "" ∧
      ∃ t, (CodeSpace.new.insert_line "x").to_string = t ++ "\n") :=
  ⟨List.cons_ne_nil _ _,
   C10_trailing_newline (CodeSpace.new.insert_line "x") (List.cons_ne_nil _ _)⟩

/-- Splitting the literal `"{\n"` the renderer emits after a block
header into the brace and the newline. -/
theorem brace_nl_split (x : String) : "\x7b\n" ++ x = "\x7b" ++ ("\n" ++ x) := by
  rw [← String.append_assoc]
  rfl

/-- Every in-block fragment — blank line, text line, or nested block —
ends with a newline. -/
theorem renderCode_ends_nl (c : Code) (d : Nat) (ind : String) :
    ∃ t, renderCode c d ind = t ++ "\n" := by
  cases c with
  | emptyLine => exact ⟨"", (String.empty_append "\n").symm⟩
  | line s => exact ⟨repeatStr ind d ++ ind ++ s, rfl⟩
  | block b => exact block_render_ends_nl b (d + 1) ind

/-- The body rendering of a non-empty child list ends with a newline. -/
theorem renderCodes_cons_ends_nl (d : Nat) (ind : String) (cs : List Code) :
    ∀ c : Code, ∃ t, renderCodes (c :: cs) d ind = t ++ "\n" := by
  induction cs with
  | nil =>
    intro c
    obtain ⟨t, ht⟩ := renderCode_ends_nl c d ind
    refine ⟨t, ?_⟩
    show renderCode c d ind ++ "" = t ++ "\n"
    rw [String.append_empty, ht]
  | cons c2 cs2 ih =>
    intro c
    obtain ⟨t, ht⟩ := ih c2
    refine ⟨renderCode c d ind ++ t, ?_⟩
    show renderCode c d ind ++ renderCodes (c2 :: cs2) d ind = _
    rw [ht, ← String.append_assoc]

/-- A rendered body is empty or ends with a newline. -/
theorem renderCodes_ends (l : List Code) (d : Nat) (ind : String) :
    renderCodes l d ind = "" ∨ ∃ t, renderCodes l d ind = t ++ "\n" := by
  cases l with
  | nil => exact Or.inl rfl
  | cons c cs => exact Or.inr (renderCodes_cons_ends_nl d ind cs c)

/-- The body rendering splits around the fragment of the child at any
valid index. -/
theorem renderCodes_split (d : Nat) (ind : String) :
    ∀ (l : List Code) (j : Nat) (c : Code), l.get? j = some c →
      renderCodes l d ind
        = renderCodes (l.take j) d ind ++ renderCode c d ind
            ++ renderCodes (l.drop (j + 1)) d ind := by
  intro l
  induction l with
  | nil => intro j c h; cases h
  | cons x xs ih =>
    intro j c h
    cases j with
    | zero =>
      injection h with h
      subst h
      show renderCode x d ind ++ renderCodes xs d ind
        = ("" ++ renderCode x d ind) ++ renderCodes xs d ind
      rw [String.empty_append]
    | succ j =>
      have h' : xs.get? j = some c := h
      show renderCode x d ind ++ renderCodes xs d ind = _
      rw [ih j c h']
      simp only [List.take_succ_cons, List.drop_succ_cons, renderCodes,
        String.append_assoc]

/-- The top-level rendering splits around the fragment of the entry at
any valid index. -/
theorem renderTop_split (ind : String) :
    ∀ (l : List Code) (j : Nat) (c : Code), l.get? j = some c →
      renderTop ind l
        = renderTop ind (l.take j) ++ renderTopCode ind c
            ++ renderTop ind (l.drop (j + 1)) := by
  intro l
  induction l with
  | nil => intro j c h; cases h
  | cons x xs ih =>
    intro j c h
    cases j with
    | zero =>
      injection h with h
      subst h
      show renderTopCode ind x ++ renderTop ind xs
        = ("" ++ renderTopCode ind x) ++ renderTop ind xs
      rw [String.empty_append]
    | succ j =>
      have h' : xs.get? j = some c := h
      show renderTopCode ind x ++ renderTop ind xs = _
      rw [ih j c h']
      simp only [List.take_succ_cons, List.drop_succ_cons, renderTop,
        String.append_assoc]

/-- A text line reached by descending through `p` nested child blocks of
a block rendered at depth `d` is emitted immediately after a newline
with prefix exactly `ind` repeated `d + p.length` times plus one extra
`ind`. -/
theorem line_in_block (p : List Nat) :
    ∀ (b bb : Block) (j : Nat) (s : String) (d : Nat) (ind : String),
      b.subBlock p = some bb → bb.codes.get? j = some (Code.line s) →
      ∃ pre post, b.to_string_with_indent d ind
        = pre ++ "\n" ++ (repeatStr ind (d + p.length) ++ ind ++ s ++ "\n") ++ post := by
  induction p with
  | nil =>
    intro b bb j s d ind hsub hline
    injection hsub with heq
    subst heq
    obtain ⟨sg, cds⟩ := b
    have hline' : cds.get? j = some (Code.line s) := hline
    have hsplit := renderCodes_split d ind cds j (Code.line s) hline'
    rcases renderCodes_ends (cds.take j) d ind with hA | ⟨t, hA⟩
    · refine ⟨repeatStr ind d ++ sigPart (Block.mk sg cds) ++ "\x7b",
        renderCodes (cds.drop (j + 1)) d ind ++ (repeatStr ind d ++ "\x7d\n"), ?_⟩
      show repeatStr ind d ++ sigPart (Block.mk sg cds) ++ "\x7b\n"
          ++ renderCodes cds d ind ++ repeatStr ind d ++ "\x7d\n" = _
      rw [hsplit, hA, String.empty_append]
      simp only [List.length_nil, Nat.add_zero, renderCode, String.append_assoc]
      rw [brace_nl_split]
    · refine ⟨repeatStr ind d ++ sigPart (Block.mk sg cds) ++ "\x7b\n" ++ t,
        renderCodes (cds.drop (j + 1)) d ind ++ (repeatStr ind d ++ "\x7d\n"), ?_⟩
      show repeatStr ind d ++ sigPart (Block.mk sg cds) ++ "\x7b\n"
          ++ renderCodes cds d ind ++ repeatStr ind d ++ "\x7d\n" = _
      rw [hsplit, hA]
      simp only [List.length_nil, Nat.add_zero, renderCode, String.append_assoc]
  | cons i p' ih =>
    intro b bb j s d ind hsub hline
    obtain ⟨sg, cds⟩ := b
    have hsub' : (match cds.get? i with
        | some (Code.block b') => b'.subBlock p'
        | _ => none) = some bb := hsub
    cases hget : cds.get? i with
    | none => rw [hget] at hsub'; cases hsub'
    | some c =>
      cases c with
      | emptyLine => rw [hget] at hsub'; cases hsub'
      | line s2 => rw [hget] at hsub'; cases hsub'
      | block b' =>
        rw [hget] at hsub'
        have hsub2 : b'.subBlock p' = some bb := hsub'
        obtain ⟨pre, post, hren⟩ := ih b' bb j s (d + 1) ind hsub2 hline
        have hfrag : renderCode (Code.block b') d ind
            = pre ++ "\n"
                ++ (repeatStr ind (d + 1 + p'.length) ++ ind ++ s ++ "\n") ++ post := hren
        have hsplit := renderCodes_split d ind cds i (Code.block b') hget
        refine ⟨repeatStr ind d ++ sigPart (Block.mk sg cds) ++ "\x7b\n"
            ++ renderCodes (cds.take i) d ind ++ pre,
          post ++ renderCodes (cds.drop (i + 1)) d ind ++ (repeatStr ind d ++ "\x7d\n"), ?_⟩
        show repeatStr ind d ++ sigPart (Block.mk sg cds) ++ "\x7b\n"
            ++ renderCodes cds d ind ++ repeatStr ind d ++ "\x7d\n" = _
        rw [hsplit, hfrag]
        simp only [List.length_cons]
        rw [← Nat.add_assoc, Nat.add_right_comm d p'.length 1]
        simp only [String.append_assoc]

/-- C1: a text line whose innermost enclosing block sits at structural
nesting depth `d` — the entry path descends into a document-level block
(depth 0) and then through `d` further nested blocks, counting only
enclosing blocks, never the document — is emitted immediately after a
newline with prefix exactly `unit` repeated `d` times followed by one
extra `unit` for the line itself, where `unit` is the document's
`indent_char` repeated `indent_depth` times. -/
theorem C1_textline_indent (cs : CodeSpace) (i : Nat) (b0 bb : Block)
    (p : List Nat) (j : Nat) (s : String)
    (h0 : cs.codes.get? i = some (Code.block b0))
    (h1 : b0.subBlock p = some bb)
    (h2 : bb.codes.get? j = some (Code.line s)) :
    ∃ pre post, cs.to_string
      = pre ++ "\n"
          ++ (repeatStr cs.indentUnit p.length ++ cs.indentUnit ++ s ++ "\n") ++ post := by
  obtain ⟨pre, post, hb⟩ := line_in_block p b0 bb j s 0 cs.indentUnit h1 h2
  have hfrag : renderTopCode cs.indentUnit (Code.block b0)
      = pre ++ "\n"
          ++ (repeatStr cs.indentUnit (0 + p.length) ++ cs.indentUnit ++ s ++ "\n")
          ++ post := hb
  have hsplit := renderTop_split cs.indentUnit cs.codes i (Code.block b0) h0
  refine ⟨renderTop cs.indentUnit (cs.codes.take i) ++ pre,
    post ++ renderTop cs.indentUnit (cs.codes.drop (i + 1)), ?_⟩
  show renderTop cs.indentUnit cs.codes = _
  rw [hsplit, hfrag, Nat.zero_add]
  simp only [String.append_assoc]

/-- Counting a character distributes over string append. -/
theorem ccount_append (ch : Char) (a b : String) :
    ccount ch (a ++ b) = ccount ch a + ccount ch b := by
  show (a ++ b).data.count ch = a.data.count ch + b.data.count ch
  rw [String.data_append, List.count_append]

/-- A brace-free string contains no opening and no closing brace. -/
theorem strBraceFree_count (s : String) (h : strBraceFree s = true) :
    ccount '\x7b' s = 0 ∧ ccount '\x7d' s = 0 := by
  have h' : ∀ c ∈ s.data, (!(c == '\x7b') && !(c == '\x7d')) = true := by
    intro c hc
    exact List.all_eq_true.mp h c hc
  constructor
  · refine List.count_eq_zero.mpr ?_
    intro hmem
    have hx := h' '{' hmem
    simp at hx
  · refine List.count_eq_zero.mpr ?_
    intro hmem
    have hx := h' '}' hmem
    simp at hx

/-- Repeating a string free of some character stays free of it. -/
theorem ccount_repeatStr (ch : Char) (ind : String) (h : ccount ch ind = 0) :
    ∀ n, ccount ch (repeatStr ind n) = 0 := by
  intro n
  induction n with
  | zero => rfl
  | succ n ih =>
    show ccount ch (ind ++ repeatStr ind n) = 0
    rw [ccount_append, h, ih]

/-- Brace-freedom distributes over string append. -/
theorem strBraceFree_append (a b : String) :
    strBraceFree (a ++ b) = (strBraceFree a && strBraceFree b) := by
  show (a ++ b).data.all _ = _
  rw [String.data_append, List.all_append]
  rfl

/-- Repeating a brace-free string stays brace-free. -/
theorem strBraceFree_repeat (s : String) (h : strBraceFree s = true) :
    ∀ n, strBraceFree (repeatStr s n) = true := by
  intro n
  induction n with
  | zero => rfl
  | succ n ih =>
    show strBraceFree (s ++ repeatStr s n) = true
    rw [strBraceFree_append, h, ih]
    rfl

mutual
/-- A brace-free block renders with as many opening as closing
braces. -/
theorem block_count_balanced : ∀ (b : Block) (d : Nat) (ind : String),
    b.braceFree = true → strBraceFree ind = true →
    ccount '\x7b' (b.to_string_with_indent d ind)
      = ccount '\x7d' (b.to_string_with_indent d ind)
  | Block.mk sg cds, d, ind, hb, hi => by
    have hb' : (optSigBraceFree sg && codesBraceFree cds) = true := hb
    rw [Bool.and_eq_true] at hb'
    obtain ⟨hsg, hcds⟩ := hb'
    have hrep1 : ccount '\x7b' (repeatStr ind d) = 0 :=
      ccount_repeatStr '\x7b' ind (strBraceFree_count ind hi).1 d
    have hrep2 : ccount '\x7d' (repeatStr ind d) = 0 :=
      ccount_repeatStr '\x7d' ind (strBraceFree_count ind hi).2 d
    have hbody := codes_count_balanced cds d ind hcds hi
    have hsp : ccount '\x7b' (sigPart (Block.mk sg cds)) = 0 ∧
        ccount '\x7d' (sigPart (Block.mk sg cds)) = 0 := by
      cases sg with
      | none => exact ⟨rfl, rfl⟩
      | some s =>
        have hsg' : strBraceFree (BlockSignature.to_string s) = true := hsg
        have hs := strBraceFree_count (BlockSignature.to_string s) hsg'
        constructor
        · show ccount '\x7b' (BlockSignature.to_string s ++ " ") = 0
          rw [ccount_append, hs.1]
          rfl
        · show ccount '\x7d' (BlockSignature.to_string s ++ " ") = 0
          rw [ccount_append, hs.2]
          rfl
    show ccount '\x7b' (repeatStr ind d ++ sigPart (Block.mk sg cds) ++ "\x7b\n"
          ++ renderCodes cds d ind ++ repeatStr ind d ++ "\x7d\n")
        = ccount '\x7d' (repeatStr ind d ++ sigPart (Block.mk sg cds) ++ "\x7b\n"
          ++ renderCodes cds d ind ++ repeatStr ind d ++ "\x7d\n")
    simp only [ccount_append]
    rw [hrep1, hrep2, hsp.1, hsp.2, hbody]
    have l1 : ccount '\x7b' "\x7b\n" = 1 := rfl
    have l2 : ccount '\x7d' "\x7b\n" = 0 := rfl
    have l3 : ccount '\x7b' "\x7d\n" = 0 := rfl
    have l4 : ccount '\x7d' "\x7d\n" = 1 := rfl
    rw [l1, l2, l3, l4]
    omega

/-- A brace-free entry list renders with as many opening as closing
braces. -/
theorem codes_count_balanced : ∀ (l : List Code) (d : Nat) (ind : String),
    codesBraceFree l = true → strBraceFree ind = true →
    ccount '\x7b' (renderCodes l d ind) = ccount '\x7d' (renderCodes l d ind)
  | [], _, _, _, _ => rfl
  | c :: cs, d, ind, h, hi => by
    have h' : (Code.braceFree c && codesBraceFree cs) = true := h
    rw [Bool.and_eq_true] at h'
    obtain ⟨h1, h2⟩ := h'
    have ha := code_count_balanced c d ind h1 hi
    have hb := codes_count_balanced cs d ind h2 hi
    show ccount '\x7b' (renderCode c d ind ++ renderCodes cs d ind)
        = ccount '\x7d' (renderCode c d ind ++ renderCodes cs d ind)
    rw [ccount_append, ccount_append, ha, hb]

/-- A brace-free entry renders with as many opening as closing
braces. -/
theorem code_count_balanced : ∀ (c : Code) (d : Nat) (ind : String),
    Code.braceFree c = true → strBraceFree ind = true →
    ccount '\x7b' (renderCode c d ind) = ccount '\x7d' (renderCode c d ind)
  | Code.emptyLine, _, _, _, _ => rfl
  | Code.line s, d, ind, h, hi => by
    have hs : strBraceFree s = true := h
    have hrep1 : ccount '\x7b' (repeatStr ind d) = 0 :=
      ccount_repeatStr '\x7b' ind (strBraceFree_count ind hi).1 d
    have hrep2 : ccount '\x7d' (repeatStr ind d) = 0 :=
      ccount_repeatStr '\x7d' ind (strBraceFree_count ind hi).2 d
    have hc := strBraceFree_count s hs
    have hic := strBraceFree_count ind hi
    show ccount '\x7b' (repeatStr ind d ++ ind ++ s ++ "\n")
        = ccount '\x7d' (repeatStr ind d ++ ind ++ s ++ "\n")
    simp only [ccount_append]
    rw [hrep1, hrep2, hc.1, hc.2, hic.1, hic.2]
    have l5 : ccount '\x7b' "\n" = 0 := rfl
    have l6 : ccount '\x7d' "\n" = 0 := rfl
    rw [l5, l6]
  | Code.block b, d, ind, h, hi => block_count_balanced b (d + 1) ind h hi
end

/-- A brace-free top-level entry list renders with as many opening as
closing braces. -/
theorem top_count_balanced (ind : String) (hi : strBraceFree ind = true) :
    ∀ l : List Code, codesBraceFree l = true →
      ccount '\x7b' (renderTop ind l) = ccount '\x7d' (renderTop ind l) := by
  intro l
  induction l with
  | nil => intro _; rfl
  | cons c cs ih =>
    intro h
    have h' : (Code.braceFree c && codesBraceFree cs) = true := h
    rw [Bool.and_eq_true] at h'
    obtain ⟨h1, h2⟩ := h'
    have hc : ccount '\x7b' (renderTopCode ind c) = ccount '\x7d' (renderTopCode ind c) := by
      cases c with
      | emptyLine => rfl
      | line s =>
        have hcs := strBraceFree_count s h1
        show ccount '\x7b' (s ++ "\n") = ccount '\x7d' (s ++ "\n")
        rw [ccount_append, ccount_append, hcs.1, hcs.2]
        rfl
      | block b => exact block_count_balanced b 0 ind h1 hi
    show ccount '\x7b' (renderTopCode ind c ++ renderTop ind cs)
        = ccount '\x7d' (renderTopCode ind c ++ renderTop ind cs)
    rw [ccount_append, ccount_append, hc, ih h2]

/-- C2 (amended): every rendered block's opening and closing delimiter
lines carry the identical indentation prefix; and the totals of opening
and closing brace characters in the output agree for every document
whose text lines, signature texts, and indent character are themselves
brace-free.  (With brace-containing line contents the totals can
differ — see the counterexample.) -/
theorem C2_balanced_delimiters (cs : CodeSpace) (h : cs.braceFree = true) :
    ccount '\x7b' cs.to_string = ccount '\x7d' cs.to_string ∧
    ∀ (b : Block) (d : Nat) (ind : String), ∃ sp body,
      b.to_string_with_indent d ind
        = repeatStr ind d ++ sp ++ "\x7b\n" ++ body ++ repeatStr ind d ++ "\x7d\n" := by
  constructor
  · have h' := h
    simp only [CodeSpace.braceFree, Bool.and_eq_true] at h'
    obtain ⟨⟨hc1, hc2⟩, hcodes⟩ := h'
    have hchar : strBraceFree (Char.toString cs.indent_char) = true := by
      show ((!(cs.indent_char == '\x7b') && !(cs.indent_char == '\x7d'))
          && List.all [] fun c => !(c == '\x7b') && !(c == '\x7d')) = true
      rw [hc1, hc2]
      rfl
    have hiu : strBraceFree cs.indentUnit = true :=
      strBraceFree_repeat _ hchar cs.indent_depth
    exact top_count_balanced cs.indentUnit hiu cs.codes hcodes
  · intro b d ind
    obtain ⟨sg, cds⟩ := b
    exact ⟨sigPart (Block.mk sg cds), renderCodes cds d ind, rfl⟩

/-- C2 counterexample: with a text line whose content is a lone opening
brace, the rendered output has one `{` and no `}` — the delimiter
totals are not equal for arbitrary entry contents, contrary to the
claim as stated. -/
theorem C2_counterexample :
    ¬(ccount '\x7b' (CodeSpace.new.insert_line "\x7b").to_string
        = ccount '\x7d' (CodeSpace.new.insert_line "\x7b").to_string) ∧
    ccount '\x7b' (CodeSpace.new.insert_line "\x7b").to_string = 1 ∧
    ccount '\x7d' (CodeSpace.new.insert_line "\x7b").to_string = 0 := by
  refine ⟨by decide, rfl, rfl⟩

/-- Witness for C2 on the scenario-B document, whose contents are
brace-free. -/
theorem C2_balanced_delimiters_witness :
    let doc := ((CodeSpace.new.insert_line "let x = 42;").insert_new_line).insert_block
      ((Block.new.set_signature (some (BlockSignature.Custom "if x > 0"))).insert_line
        "println!(\"Positive number!\");")
    doc.braceFree = true ∧
    (ccount '\x7b' doc.to_string = ccount '\x7d' doc.to_string ∧
      ∀ (b : Block) (d : Nat) (ind : String), ∃ sp body,
        b.to_string_with_indent d ind
          = repeatStr ind d ++ sp ++ "\x7b\n" ++ body ++ repeatStr ind d ++ "\x7d\n") :=
  ⟨rfl, C2_balanced_delimiters _ rfl⟩

/-- Witness for C1 on the scenario-A document: the line `"testing"`
inside the block nested one level deep is emitted with a two-unit
prefix. -/
theorem C1_textline_indent_witness :
    let innerB := Block.new.insert_line "testing"
    let outerB := (Block.new.insert_line "testing").insert_block innerB
    let doc := ((CodeSpace.new.insert_line "//! comment").insert_line "").insert_block outerB
    doc.codes.get? 2 = some (Code.block outerB) ∧
    outerB.subBlock [1] = some innerB ∧
    innerB.codes.get? 0 = some (Code.line "testing") ∧
    ∃ pre post, doc.to_string
      = pre ++ "\n"
          ++ (repeatStr doc.indentUnit [1].length ++ doc.indentUnit ++ "testing" ++ "\n")
          ++ post :=
  ⟨rfl, rfl, rfl, C1_textline_indent _ 2 _ _ [1] 0 "testing" rfl rfl rfl⟩

end RCB
